import Mathlib

/-!
Verification of the document ingestion / ETL / indexing / search pipeline.

This development shallowly embeds the JavaScript source of the pipeline:

* `src/main-api/src/utils/etlUtils` (`normalizeColumnName`,
  `transformTableToColumnStructure`, two-argument version used by the
  consumer),
* `src/main-api/src/utils/pdfParser.js` (text-based table detection inside
  `parseFullPDF`),
* `src/main-api/src/services/ElasticsearchService.js`
  (`ElasticsearchService.indexDocuments`, `RabbitMQConsumerService.handleMessage`
  and `processPdfParsedMessage`),
* `src/main-api/src/repositories/PdfRepository.js` (`updateStatus`) together
  with `PdfService.createPdf`,
* `src/main-api/src/controllers/PdfController.js` (`processPdfAsync`),
* the `SearchController` (validation, `buildSearchQuery`,
  `getPdfIdByFilename`).

JavaScript strings are embedded as Lean `String`s over their character lists;
machine-level details that no claim depends on (full Unicode case folding for
characters that the pipeline immediately strips, real network I/O) are modelled
by explicit outcome parameters (`Except String _`) at the points where the code
awaits an external collaborator.
-/

namespace FlowAutomate

/-! ## JavaScript string primitives

ASCII-accurate embeddings of the string operations the pipeline uses:
`toLowerCase`, `trim`, and the specific regex replacements of
`normalizeColumnName`.  Character classes are expressed through `Char.toNat`
codes so that facts about them reduce to linear arithmetic. -/

/-- JS `\s` (whitespace class): TAB, LF, VT, FF, CR, SP, NBSP, and the
Unicode space separators recognised by ECMAScript. -/
def jsIsSpace (c : Char) : Bool :=
  c.toNat ∈ [9, 10, 11, 12, 13, 32, 160, 0x1680, 0x2000, 0x2001, 0x2002,
    0x2003, 0x2004, 0x2005, 0x2006, 0x2007, 0x2008, 0x2009, 0x200a,
    0x2028, 0x2029, 0x202f, 0x205f, 0x3000, 0xfeff]

/-- `String.prototype.toLowerCase` on the ASCII range (`A`–`Z` ↦ `a`–`z`).
Non-ASCII letters are left unchanged; every use site strips all characters
outside `[a-z0-9_]` immediately afterwards, so this agrees with the source
on every retained character. -/
def jsToLowerChar (c : Char) : Char :=
  if 65 ≤ c.toNat ∧ c.toNat ≤ 90 then Char.ofNat (c.toNat + 32) else c

/-- The character class `[a-z0-9_]` of the normalization regexes. -/
def isAlnumU (c : Char) : Bool :=
  (97 ≤ c.toNat && c.toNat ≤ 122) || (48 ≤ c.toNat && c.toNat ≤ 57) ||
    c.toNat == 95

/-- Digits `[0-9]`. -/
def isDigitCh (c : Char) : Bool := 48 ≤ c.toNat && c.toNat ≤ 57

/-- The class `[\d,]` used by the table-row regexes. -/
def isDigitComma (c : Char) : Bool := isDigitCh c || c == ','

/-- `String.prototype.trim` on a character list. -/
def jsTrimL (l : List Char) : List Char :=
  ((l.dropWhile jsIsSpace).reverse.dropWhile jsIsSpace).reverse

/-- `String.prototype.trim`. -/
def jsTrim (s : String) : String := ⟨jsTrimL s.data⟩

/-- `replace(/\s+/g, '_')`: each maximal run of whitespace becomes a single
underscore.  `inRun` tracks whether the previous character belonged to the
run currently being replaced. -/
def collapseSpacesAux : Bool → List Char → List Char
  | _, [] => []
  | inRun, c :: cs =>
    if jsIsSpace c then
      if inRun then collapseSpacesAux true cs
      else '_' :: collapseSpacesAux true cs
    else c :: collapseSpacesAux false cs

/-- `replace(/\s+/g, '_')` on a character list. -/
def collapseSpaces (l : List Char) : List Char := collapseSpacesAux false l

/-- `replace(/^_+|_+$/g, '')`: drop the leading and the trailing run of
underscores. -/
def trimUnderscores (l : List Char) : List Char :=
  ((l.dropWhile (· == '_')).reverse.dropWhile (· == '_')).reverse

/-- `normalizeColumnName` from `etlUtils`:
`lowercase → trim → \s+ ↦ _ → strip [^a-z0-9_] → strip ^_+|_+$`. -/
def normalizeColumnName (header : String) : String :=
  ⟨trimUnderscores (List.filter isAlnumU
      (collapseSpaces (jsTrimL (header.data.map jsToLowerChar))))⟩

/-! ### Character-class facts -/

theorem jsToLowerChar_of_isAlnumU {c : Char} (h : isAlnumU c = true) :
    jsToLowerChar c = c := by
  simp only [isAlnumU, Bool.or_eq_true, Bool.and_eq_true, decide_eq_true_eq,
    beq_iff_eq] at h
  unfold jsToLowerChar
  rw [if_neg]
  omega

theorem jsIsSpace_eq_false_of_isAlnumU {c : Char} (h : isAlnumU c = true) :
    jsIsSpace c = false := by
  simp only [isAlnumU, Bool.or_eq_true, Bool.and_eq_true, decide_eq_true_eq,
    beq_iff_eq] at h
  simp only [jsIsSpace, List.mem_cons, List.not_mem_nil, or_false,
    decide_eq_false_iff_not]
  omega

/-! ### Generic `dropWhile` facts used by the trimming steps -/

theorem dropWhile_head_false {p : α → Bool} {l : List α} {x : α} {xs : List α}
    (h : l.dropWhile p = x :: xs) : p x = false := by
  induction l with
  | nil => simp at h
  | cons a as ih =>
    by_cases hp : p a
    · rw [List.dropWhile_cons, if_pos hp] at h
      exact ih h
    · rw [List.dropWhile_cons, if_neg hp] at h
      cases h
      exact Bool.of_not_eq_true hp

theorem dropWhile_idem (p : α → Bool) (l : List α) :
    (l.dropWhile p).dropWhile p = l.dropWhile p := by
  cases h : l.dropWhile p with
  | nil => rfl
  | cons x xs =>
    have hx := dropWhile_head_false h
    rw [List.dropWhile_cons, if_neg (by simp [hx])]

theorem dropWhile_append_singleton (p : α → Bool) (x : α) (hx : p x = false)
    (u : List α) : (u ++ [x]).dropWhile p = u.dropWhile p ++ [x] := by
  induction u with
  | nil => simp [List.dropWhile_cons, hx]
  | cons a as ih =>
    by_cases hp : p a
    · simp only [List.cons_append, List.dropWhile_cons, if_pos hp, ih]
    · simp only [List.cons_append, List.dropWhile_cons, if_neg hp]

theorem dropWhile_eq_self_of_all {p : α → Bool} {l : List α}
    (h : ∀ c ∈ l, p c = false) : l.dropWhile p = l := by
  cases l with
  | nil => rfl
  | cons a as =>
    rw [List.dropWhile_cons, if_neg (by simp [h a (List.mem_cons_self a as)])]

/-! ### Behaviour of the individual normalization stages on normalized text -/

theorem mem_trimUnderscores {l : List Char} {c : Char}
    (h : c ∈ trimUnderscores l) : c ∈ l := by
  unfold trimUnderscores at h
  rw [List.mem_reverse] at h
  have h1 := (List.dropWhile_sublist (l := (l.dropWhile (· == '_')).reverse)
    (p := (· == '_'))).mem h
  rw [List.mem_reverse] at h1
  exact (List.dropWhile_sublist (l := l) (p := (· == '_'))).mem h1

theorem trimUnderscores_idem (l : List Char) :
    trimUnderscores (trimUnderscores l) = trimUnderscores l := by
  unfold trimUnderscores
  cases h : l.dropWhile (· == '_') with
  | nil => simp
  | cons x xs =>
    have hx := dropWhile_head_false h
    -- the inner trim keeps `x` as its first element
    have hrev : (x :: xs).reverse = xs.reverse ++ [x] := by simp
    rw [hrev, dropWhile_append_singleton (fun c => c == '_') x hx,
      List.reverse_append]
    simp only [List.reverse_cons, List.nil_append, List.reverse_nil,
      List.singleton_append]
    rw [List.dropWhile_cons, if_neg (by simp_all)]
    have hrev2 : (x :: (xs.reverse.dropWhile (· == '_')).reverse).reverse
        = (xs.reverse.dropWhile (· == '_')).reverse.reverse ++ [x] := by simp
    rw [hrev2, List.reverse_reverse,
      dropWhile_append_singleton (fun c => c == '_') x hx,
      dropWhile_idem, List.reverse_append]
    simp

theorem collapseSpacesAux_eq_self {l : List Char}
    (h : ∀ c ∈ l, jsIsSpace c = false) (b : Bool) :
    collapseSpacesAux b l = l := by
  induction l generalizing b with
  | nil => rfl
  | cons a as ih =>
    have ha := h a (List.mem_cons_self a as)
    unfold collapseSpacesAux
    rw [ha]
    simp only [Bool.false_eq_true, if_false]
    rw [ih (fun c hc => h c (List.mem_cons_of_mem a hc))]

theorem jsTrimL_eq_self {l : List Char} (h : ∀ c ∈ l, jsIsSpace c = false) :
    jsTrimL l = l := by
  unfold jsTrimL
  rw [dropWhile_eq_self_of_all h,
    dropWhile_eq_self_of_all (fun c hc => h c (List.mem_reverse.mp hc)),
    List.reverse_reverse]

/-- Claim C7 core fact: every character surviving normalization lies in
`[a-z0-9_]`. -/
theorem normalizeColumnName_chars (s : String) :
    ∀ c ∈ (normalizeColumnName s).data, isAlnumU c = true := by
  intro c hc
  unfold normalizeColumnName at hc
  exact List.of_mem_filter (mem_trimUnderscores hc)

/-- C7.  Column-name normalization is idempotent:
`normalizeColumnName (normalizeColumnName h) = normalizeColumnName h`
(spec §8: `normalize(normalize(h)) == normalize(h)`). -/
theorem normalizeColumnName_idem (h : String) :
    normalizeColumnName (normalizeColumnName h) = normalizeColumnName h := by
  have hall := normalizeColumnName_chars h
  set y := (normalizeColumnName h).data with hy
  have hmap : y.map jsToLowerChar = y := by
    have := List.map_congr_left
      (fun c hc => jsToLowerChar_of_isAlnumU (hall c hc) : ∀ c ∈ y, jsToLowerChar c = id c)
    rw [this]
    simp
  have hnospace : ∀ c ∈ y, jsIsSpace c = false :=
    fun c hc => jsIsSpace_eq_false_of_isAlnumU (hall c hc)
  have hfilter : y.filter isAlnumU = y := List.filter_eq_self.mpr hall
  show String.mk (trimUnderscores (List.filter isAlnumU
      (collapseSpaces (jsTrimL (y.map jsToLowerChar))))) = String.mk y
  rw [hmap, jsTrimL_eq_self hnospace]
  unfold collapseSpaces
  rw [collapseSpacesAux_eq_self hnospace, hfilter]
  have hyt : trimUnderscores y = y := by
    rw [hy]
    unfold normalizeColumnName
    exact trimUnderscores_idem _
  rw [hyt]

/-! ## ETL Transformer: column-structured tables

Embedding of `transformTableToColumnStructure` (the two-argument version in
`etlUtils` used by the queue consumer): headers come from the table title
word list, and every content row is zipped positionally against the
normalized header names.  A JavaScript object literal is modelled as an
association list in insertion order where assigning an existing key
overwrites its value in place (`setKey`), exactly as
`columnObject[columnName] = value` behaves. -/

/-- A JavaScript object with string values: keys in insertion order. -/
abbrev ObjMap := List (String × String)

/-- `obj[k] = v`: overwrite in place when the key exists (a JS object holds
each key at most once, so overwriting the first occurrence is the object
assignment), append otherwise. -/
def setKey : ObjMap → String → String → ObjMap
  | [], k, v => [(k, v)]
  | p :: ps, k, v => if p.1 = k then (k, v) :: ps else p :: setKey ps k v

/-- `obj[k]`: value of the key, if present. -/
def getKey (m : ObjMap) (k : String) : Option String :=
  (m.find? (fun p => p.1 == k)).map Prod.snd

/-- One row of extracted table content (`{row: <number>, data: <cells>}`). -/
structure ContentRow where
  row : Nat
  data : List String
deriving DecidableEq, Repr

/-- One entry of `table_structured` (`{row_number, row}`). -/
structure StructRow where
  row_number : Nat
  row : ObjMap
deriving DecidableEq, Repr

/-- The `headers.forEach((header, colIndex) => ...)` loop building one
`columnObject`: walking the headers left to right, the cell at the same
position (`rowData[colIndex] || ''`, i.e. empty string when the cell is
missing or empty) is stored under the normalized column name. -/
def buildRowAux (m : ObjMap) : List String → List String → ObjMap
  | [], _ => m
  | h :: hs, cells =>
    buildRowAux (setKey m (normalizeColumnName h) (cells.headD "")) hs cells.tail

/-- The column object built for one data row. -/
def buildRowObject (headers cells : List String) : ObjMap :=
  buildRowAux [] headers cells

/-- `transformTableToColumnStructure(tableContent, tableTitle)`:
returns `[]` when the content or the title word list is absent/empty,
otherwise maps every content row (the two-argument version does not skip a
header row) to its column object. -/
def transformTableToColumnStructure (tableContent : List ContentRow)
    (tableTitle : Option (List String)) : List StructRow :=
  match tableTitle with
  | none => []
  | some headers =>
    if tableContent.isEmpty || headers.isEmpty then []
    else tableContent.map (fun r => ⟨r.row, buildRowObject headers r.data⟩)

/-! ### Key-set facts about `buildRowObject` -/

/-- Keys of the object, in insertion order. -/
def keysOf (m : ObjMap) : List String := m.map Prod.fst

theorem keysOf_setKey (m : ObjMap) (k v : String) :
    keysOf (setKey m k v) = if k ∈ keysOf m then keysOf m else keysOf m ++ [k] := by
  induction m with
  | nil =>
    rw [if_neg (by simp [keysOf])]
    rfl
  | cons p ps ih =>
    by_cases hk : p.1 = k
    · have hmemc : k ∈ keysOf (p :: ps) := by
        rw [show keysOf (p :: ps) = p.1 :: keysOf ps from rfl, hk]
        exact List.mem_cons_self _ _
      rw [setKey, if_pos hk, if_pos hmemc]
      show k :: keysOf ps = p.1 :: keysOf ps
      rw [hk]
    · rw [setKey, if_neg hk]
      have hkk : (k ∈ keysOf (p :: ps)) ↔ k ∈ keysOf ps := by
        rw [show keysOf (p :: ps) = p.1 :: keysOf ps from rfl, List.mem_cons]
        exact ⟨fun hc => hc.resolve_left (fun he => hk he.symm), Or.inr⟩
      show p.1 :: keysOf (setKey ps k v) = _
      rw [ih]
      by_cases hmem : k ∈ keysOf ps
      · rw [if_pos hmem, if_pos (hkk.mpr hmem)]
        rfl
      · rw [if_neg hmem, if_neg (fun hc => hmem (hkk.mp hc))]
        rfl

theorem mem_keysOf_setKey (m : ObjMap) (k v k' : String) :
    k' ∈ keysOf (setKey m k v) ↔ k' ∈ keysOf m ∨ k' = k := by
  rw [keysOf_setKey]
  by_cases hmem : k ∈ keysOf m
  · rw [if_pos hmem]
    constructor
    · exact Or.inl
    · rintro (h | rfl)
      · exact h
      · exact hmem
  · rw [if_neg hmem]
    simp

theorem nodup_keysOf_setKey {m : ObjMap} (h : (keysOf m).Nodup) (k v : String) :
    (keysOf (setKey m k v)).Nodup := by
  rw [keysOf_setKey]
  by_cases hmem : k ∈ keysOf m
  · rwa [if_pos hmem]
  · rw [if_neg hmem]
    simpa [List.nodup_append] using ⟨h, hmem⟩

theorem nodup_keysOf_buildRowAux (headers : List String) :
    ∀ (m : ObjMap) (cells : List String), (keysOf m).Nodup →
      (keysOf (buildRowAux m headers cells)).Nodup := by
  induction headers with
  | nil => intro m cells hm; exact hm
  | cons h hs ih =>
    intro m cells hm
    exact ih _ cells.tail (nodup_keysOf_setKey hm _ _)

theorem mem_keysOf_buildRowAux (headers : List String) :
    ∀ (m : ObjMap) (cells : List String) (k : String),
      k ∈ keysOf (buildRowAux m headers cells) ↔
        k ∈ keysOf m ∨ k ∈ headers.map normalizeColumnName := by
  induction headers with
  | nil => intro m cells k; simp [buildRowAux]
  | cons h hs ih =>
    intro m cells k
    unfold buildRowAux
    rw [ih, mem_keysOf_setKey]
    simp only [List.map_cons, List.mem_cons]
    tauto

/-- The keys of one built row are exactly the deduplicated normalized header
tokens: same membership, no duplicates, hence the key count equals the
number of distinct normalized headers. -/
theorem length_keysOf_buildRowObject (headers cells : List String) :
    (keysOf (buildRowObject headers cells)).Nodup ∧
    (∀ k, k ∈ keysOf (buildRowObject headers cells) ↔
      k ∈ headers.map normalizeColumnName) ∧
    (keysOf (buildRowObject headers cells)).length =
      ((headers.map normalizeColumnName).dedup).length := by
  have hnd : (keysOf (buildRowObject headers cells)).Nodup :=
    nodup_keysOf_buildRowAux headers [] cells (by simp [keysOf])
  have hmem : ∀ k, k ∈ keysOf (buildRowObject headers cells) ↔
      k ∈ headers.map normalizeColumnName := by
    intro k
    rw [buildRowObject, mem_keysOf_buildRowAux]
    simp [keysOf]
  refine ⟨hnd, hmem, ?_⟩
  have h1 : (keysOf (buildRowObject headers cells)).toFinset =
      (headers.map normalizeColumnName).toFinset := by
    ext k
    simp only [List.mem_toFinset]
    exact hmem k
  calc (keysOf (buildRowObject headers cells)).length
      = (keysOf (buildRowObject headers cells)).toFinset.card := by
        rw [List.toFinset_card_of_nodup hnd]
    _ = (headers.map normalizeColumnName).toFinset.card := by rw [h1]
    _ = ((headers.map normalizeColumnName).dedup).length := by
        rw [List.card_toFinset]

/-! ### Cell lookup facts about `buildRowObject` -/

theorem getKey_cons_ne {q : String × String} {k' : String} (h : q.1 ≠ k')
    (ps : ObjMap) : getKey (q :: ps) k' = getKey ps k' := by
  unfold getKey
  rw [List.find?_cons_of_neg (p := fun r : String × String => r.1 == k') _
    (by simp [h])]

theorem getKey_cons_eq {q : String × String} {k' : String} (h : q.1 = k')
    (ps : ObjMap) : getKey (q :: ps) k' = some q.2 := by
  unfold getKey
  rw [List.find?_cons_of_pos (p := fun r : String × String => r.1 == k') _
    (by simp [h])]
  rfl

theorem getKey_setKey_self (m : ObjMap) (k v : String) :
    getKey (setKey m k v) k = some v := by
  induction m with
  | nil => exact getKey_cons_eq rfl []
  | cons p ps ih =>
    by_cases hk : p.1 = k
    · rw [setKey, if_pos hk]
      exact getKey_cons_eq rfl ps
    · rw [setKey, if_neg hk, getKey_cons_ne hk]
      exact ih

theorem getKey_setKey_ne (m : ObjMap) (k v k' : String) (h : k' ≠ k) :
    getKey (setKey m k v) k' = getKey m k' := by
  have hkv : ((k, v).1 : String) ≠ k' := fun hc => h hc.symm
  induction m with
  | nil => exact getKey_cons_ne hkv []
  | cons p ps ih =>
    by_cases hk : p.1 = k
    · rw [setKey, if_pos hk, getKey_cons_ne hkv,
        getKey_cons_ne (show p.1 ≠ k' from hk ▸ fun hc => h hc.symm)]
    · rw [setKey, if_neg hk]
      by_cases hp' : p.1 = k'
      · rw [getKey_cons_eq hp', getKey_cons_eq hp']
      · rw [getKey_cons_ne hp', getKey_cons_ne hp']
        exact ih

theorem getKey_buildRowAux_not_mem (hs : List String) :
    ∀ (m : ObjMap) (cs : List String) (k : String),
      k ∉ hs.map normalizeColumnName →
      getKey (buildRowAux m hs cs) k = getKey m k := by
  induction hs with
  | nil => intro m cs k _; rfl
  | cons h hs ih =>
    intro m cs k hk
    simp only [List.map_cons, List.mem_cons, not_or] at hk
    unfold buildRowAux
    rw [ih _ _ _ hk.2, getKey_setKey_ne _ _ _ _ hk.1]

theorem headD_eq_getD_zero (cs : List String) : cs.headD "" = cs.getD 0 "" := by
  cases cs <;> rfl

theorem tail_getD (cs : List String) (i : Nat) :
    cs.tail.getD i "" = cs.getD (i + 1) "" := by
  cases cs <;> rfl

/-- If the normalized name of header `i` does not reappear at any later
position, the built row object maps it to the cell at position `i`
(empty string when the row is too short). -/
theorem getKey_buildRowAux_nth (hs : List String) :
    ∀ (m : ObjMap) (cs : List String) (i : Nat), i < hs.length →
      (∀ j, i < j → j < hs.length →
        normalizeColumnName (hs.getD j "") ≠ normalizeColumnName (hs.getD i "")) →
      getKey (buildRowAux m hs cs) (normalizeColumnName (hs.getD i "")) =
        some (cs.getD i "") := by
  induction hs with
  | nil => intro m cs i hi _; simp at hi
  | cons h hs ih =>
    intro m cs i hi hlater
    cases i with
    | zero =>
      unfold buildRowAux
      have hnot : normalizeColumnName ((h :: hs).getD 0 "") ∉
          hs.map normalizeColumnName := by
        intro hmem
        rcases List.mem_map.mp hmem with ⟨x, hx, hxk⟩
        rcases List.mem_iff_getElem.mp hx with ⟨j, hj, hxj⟩
        refine hlater (j + 1) (Nat.succ_pos j) (by simpa using Nat.succ_lt_succ hj) ?_
        show normalizeColumnName ((h :: hs).getD (j + 1) "") =
          normalizeColumnName ((h :: hs).getD 0 "")
        have : (h :: hs).getD (j + 1) "" = x := by
          show hs.getD j "" = x
          rw [List.getD_eq_getElem _ _ hj, hxj]
        rw [this, hxk]
      rw [getKey_buildRowAux_not_mem hs _ _ _ hnot]
      show getKey (setKey m (normalizeColumnName h) (cs.headD "")) (normalizeColumnName h) = _
      rw [getKey_setKey_self, headD_eq_getD_zero]
    | succ i =>
      unfold buildRowAux
      have := ih (setKey m (normalizeColumnName h) (cs.headD "")) cs.tail i
        (by simpa using Nat.lt_of_succ_lt_succ hi)
        (fun j hj hjl => hlater (j + 1) (Nat.succ_lt_succ hj)
          (by simpa using Nat.succ_lt_succ hjl))
      rw [tail_getD] at this
      exact this

/-- C3 (amended).  For every transformed table, every row object's key list
is duplicate-free and is, as a set, exactly the normalized header tokens,
so each row has exactly as many keys as there are **distinct** normalized
header tokens (a header normalizing to the empty string still contributes
the empty-string key, and duplicate tokens collapse); and when the
normalized header tokens are pairwise distinct, the cell at every header
position — in particular the empty string at cell positions missing from
the row — is mapped under that header's token. -/
theorem table_structured_row_keys (content : List ContentRow)
    (headers : List String) (hc : content ≠ []) (hh : headers ≠ []) :
    ∀ s ∈ transformTableToColumnStructure content (some headers),
      ∃ r ∈ content, s.row_number = r.row ∧
        (keysOf s.row).Nodup ∧
        (∀ k, k ∈ keysOf s.row ↔ k ∈ headers.map normalizeColumnName) ∧
        (keysOf s.row).length = ((headers.map normalizeColumnName).dedup).length ∧
        ((headers.map normalizeColumnName).Nodup →
          ∀ i, i < headers.length →
            getKey s.row (normalizeColumnName (headers.getD i "")) =
              some (r.data.getD i "")) := by
  intro s hs
  have h1 : content.isEmpty = false := by
    cases content with
    | nil => exact absurd rfl hc
    | cons a as => rfl
  have h2 : headers.isEmpty = false := by
    cases headers with
    | nil => exact absurd rfl hh
    | cons a as => rfl
  simp only [transformTableToColumnStructure, h1, h2, Bool.or_self,
    Bool.false_eq_true, if_false] at hs
  rcases List.mem_map.mp hs with ⟨r, hr, hsr⟩
  refine ⟨r, hr, by rw [← hsr], ?_, ?_, ?_, ?_⟩
  · rw [← hsr]
    exact (length_keysOf_buildRowObject headers r.data).1
  · rw [← hsr]
    exact (length_keysOf_buildRowObject headers r.data).2.1
  · rw [← hsr]
    exact (length_keysOf_buildRowObject headers r.data).2.2
  · intro hnd i hi
    rw [← hsr]
    show getKey (buildRowObject headers r.data) _ = _
    apply getKey_buildRowAux_nth headers [] r.data i hi
    intro j hij hj hcontra
    have hj2 : j < (headers.map normalizeColumnName).length := by simpa using hj
    have hi2 : i < (headers.map normalizeColumnName).length := by simpa using hi
    have hgd : (headers.map normalizeColumnName).getD j "" =
        (headers.map normalizeColumnName).getD i "" := by
      rw [List.getD_eq_getElem _ _ hj2, List.getD_eq_getElem _ _ hi2,
        List.getElem_map, List.getElem_map,
        ← List.getD_eq_getElem headers "" hj, ← List.getD_eq_getElem headers "" hi]
      exact hcontra
    rw [List.getD_eq_getElem _ _ hj2, List.getD_eq_getElem _ _ hi2] at hgd
    have := (List.Nodup.getElem_inj_iff hnd).mp hgd
    omega

/-- C3 counterexample.  The claim "every row object has exactly as many keys
as there are normalized, non-empty header tokens" fails on the table with
title words `["Revenue", "revenue"]` and single row `["a"]`: both headers
normalize to `"revenue"`, so there are two non-empty tokens but the row
object holds a single key — and the second (missing) cell has even
overwritten the first cell's value with the empty string. -/
theorem table_structured_key_count_cex :
    transformTableToColumnStructure [⟨1, ["a"]⟩] (some ["Revenue", "revenue"]) =
      [⟨1, [("revenue", "")]⟩] ∧
    (transformTableToColumnStructure [⟨1, ["a"]⟩] (some ["Revenue", "revenue"])).all
      (fun s => (keysOf s.row).length =
        ((["Revenue", "revenue"].map normalizeColumnName).filter
          (fun t => t ≠ "")).length) = false := by
  decide

/-- Witness for `table_structured_row_keys` at a concrete table. -/
theorem table_structured_row_keys_witness :
    ∃ r ∈ [ContentRow.mk 1 ["x"]],
      (StructRow.mk 1 (buildRowObject ["ID", "Name"] ["x"])).row_number = r.row ∧
      (keysOf (StructRow.mk 1 (buildRowObject ["ID", "Name"] ["x"])).row).Nodup ∧
      (∀ k, k ∈ keysOf (StructRow.mk 1 (buildRowObject ["ID", "Name"] ["x"])).row ↔
        k ∈ ["ID", "Name"].map normalizeColumnName) ∧
      (keysOf (StructRow.mk 1 (buildRowObject ["ID", "Name"] ["x"])).row).length =
        ((["ID", "Name"].map normalizeColumnName).dedup).length ∧
      ((["ID", "Name"].map normalizeColumnName).Nodup →
        ∀ i, i < (["ID", "Name"] : List String).length →
          getKey (StructRow.mk 1 (buildRowObject ["ID", "Name"] ["x"])).row
              (normalizeColumnName ((["ID", "Name"] : List String).getD i "")) =
            some (r.data.getD i "")) :=
  table_structured_row_keys [⟨1, ["x"]⟩] ["ID", "Name"] (by decide) (by decide)
    ⟨1, buildRowObject ["ID", "Name"] ["x"]⟩ (by decide)

/-! ## Content Extractor: text-based table detection

Embedding of the fallback table detection in `parseFullPDF`
(`src/main-api/src/utils/pdfParser.js`), which runs when the structural
extractor found no tables: stage 2 looks for the concatenated header
signature `IDProduct NameUnits SoldRevenue` and parses the following data
lines with the record pattern `^(\d+)(.+)$`, locating the trailing currency
amount (`\$[\d,]+$`) and then the trailing numeric run (`[\d,]+$`); stage 3
treats any line splitting into ≥ 3 segments on `\s{2,}|\t` as a table row. -/

/-- `startsWith` on character lists. -/
def startsWithL : List Char → List Char → Bool
  | _, [] => true
  | [], _ :: _ => false
  | c :: cs, d :: ds => c == d && startsWithL cs ds

/-- Substring containment (`String.prototype.includes`). -/
def hasSub (sub : List Char) : List Char → Bool
  | [] => sub.isEmpty
  | c :: cs => startsWithL (c :: cs) sub || hasSub sub cs

/-- `line.includes(sub)`. -/
def strContains (s sub : String) : Bool := hasSub sub.data s.data

/-- `line.match(/^(\d+)(.+)$/)`: the greedy digit group backtracks one
character when the whole line is digits, since `(.+)` needs at least one. -/
def matchIdRest (l : List Char) : Option (List Char × List Char) :=
  let ds := l.takeWhile isDigitCh
  let rest := l.dropWhile isDigitCh
  if ds.isEmpty then none
  else if rest.isEmpty then
    if 2 ≤ ds.length then some (ds.dropLast, ds.drop (ds.length - 1)) else none
  else some (ds, rest)

/-- `restTrimmed.match(/\$[\d,]+$/)`: matches exactly when the last `$` of
the string is followed by a non-empty run of digits/commas reaching the end
(an earlier `$` can never match because the `$` after it is not in `[\d,]`).
Returns `(prefix before the match, the match)`. -/
def matchCurrencyTail (l : List Char) : Option (List Char × List Char) :=
  let rev := l.reverse
  let afterRev := rev.takeWhile (fun c => c != '$')
  let fromDollar := rev.dropWhile (fun c => c != '$')
  if fromDollar.isEmpty then none
  else if afterRev.isEmpty then none
  else if afterRev.all isDigitComma then
    some (fromDollar.tail.reverse, '$' :: afterRev.reverse)
  else none

/-- `beforeRevenue.match(/[\d,]+$/)`: the maximal trailing digit/comma run.
Returns `(prefix before the match, the match)`. -/
def matchTrailingNum (l : List Char) : Option (List Char × List Char) :=
  let rev := l.reverse
  let run := rev.takeWhile isDigitComma
  if run.isEmpty then none
  else some ((rev.dropWhile isDigitComma).reverse, run.reverse)

/-- Assembly of one parsed data row
`[id.trim(), productName || rest.trim(), units || '', revenue || '']`. -/
def buildTableRow (ds rest : List Char) : List String :=
  let restTrimmed := jsTrimL rest
  let revPart := matchCurrencyTail restTrimmed
  let revenue := match revPart with | some (_, rv) => rv | none => []
  let beforeRevenue := match revPart with
    | some (pre, _) => jsTrimL pre
    | none => restTrimmed
  let unitsPart := matchTrailingNum beforeRevenue
  let units := match unitsPart with | some (_, u) => u | none => []
  let productName := match unitsPart with
    | some (pre2, _) => jsTrimL pre2
    | none => beforeRevenue
  [⟨jsTrimL ds⟩,
   ⟨if productName.isEmpty then restTrimmed else productName⟩,
   ⟨units⟩, ⟨revenue⟩]

/-- The row-consuming loop after the header: stops at an empty line, at
`Sample Image`/`Figure` markers, at a line without a digit prefix, and at a
line whose remainder after the id is 10 characters or shorter. -/
def scanTableRows : List String → List (List String)
  | [] => []
  | l :: ls =>
    let line := jsTrim l
    if line.isEmpty || strContains line "Sample Image" ||
        strContains line "Figure" then []
    else match matchIdRest line.data with
      | some (ds, rest) =>
        if 10 < rest.length then buildTableRow ds rest :: scanTableRows ls
        else []
      | none => []

/-- The known-table header row hard-coded by the detector. -/
def knownTableHeaders : List String := ["ID", "Product Name", "Units Sold", "Revenue ($)"]

/-- Stage 2: find the concatenated header signature and parse the data
lines after it; `none` when the signature is absent or no row parses. -/
def detectKnownTable (textLines : List String) : Option (List (List String)) :=
  match textLines.findIdx? (fun l => strContains l "IDProduct NameUnits SoldRevenue") with
  | none => none
  | some idx =>
    let rows := scanTableRows (textLines.drop (idx + 1))
    if rows.isEmpty then none else some rows

/-- Is the next character whitespace (lookahead deciding whether `\s{2,}`
can match at the current position)? -/
def nextIsSpace : List Char → Bool
  | [] => false
  | d :: _ => jsIsSpace d

/-- `line.split(/\s{2,}|\t/)`: a maximal whitespace run of length ≥ 2, or a
single tab, separates segments.  `skipping` is true while consuming the
remainder of a separating run. -/
def splitColsAux : Bool → List Char → List Char → List (List Char)
  | _, acc, [] => [acc.reverse]
  | skipping, acc, c :: cs =>
    if skipping then
      if jsIsSpace c then splitColsAux true acc cs
      else splitColsAux false [c] cs
    else
      if jsIsSpace c then
        if nextIsSpace cs then acc.reverse :: splitColsAux true [] cs
        else if c = '\t' then acc.reverse :: splitColsAux false [] cs
        else splitColsAux false (c :: acc) cs
      else splitColsAux false (c :: acc) cs

/-- `line.split(/\s{2,}|\t/)` as strings. -/
def splitCols (s : String) : List String :=
  (splitColsAux false [] s.data).map (fun l => ⟨l⟩)

/-- Stage 3: every non-empty line splitting into at least 3 segments is a
potential table row (segments trimmed, empties discarded). -/
def genericPotentialRows (textLines : List String) : List (List String) :=
  textLines.foldr (fun l acc =>
    let line := jsTrim l
    if line.isEmpty then acc
    else
      let parts := splitCols line
      if 3 ≤ parts.length then
        ((parts.map jsTrim).filter (fun p => !p.isEmpty)) :: acc
      else acc) []

/-- A detected table (`{page, headers, rows, ..., title?}`; the page is
always 1 and the counts are derived, so only the varying fields are kept). -/
structure DetectedTable where
  headers : List String
  rows : List (List String)
  title : Option String
deriving DecidableEq, Repr

/-- The combined text-based detection: stage 2 wins when it produced at
least one row (with the hard-coded headers and title), otherwise stage 3's
first potential row becomes the header row and the rest the data rows. -/
def textBasedTableDetection (textLines : List String) : List DetectedTable :=
  match detectKnownTable textLines with
  | some rows => [⟨knownTableHeaders, rows, some "Q4 2024 Sales Performance"⟩]
  | none =>
    let pot := genericPotentialRows textLines
    if pot.isEmpty then []
    else [⟨pot.headD [], pot.tail, none⟩]

/-- C8 counterexample.  On the header line exactly as the claim writes it —
`ID Product Name Units Sold Revenue ($)`, with spaces — followed by the
claimed data line, the detection produces **no** table at all (the stage-2
signature is the concatenated `IDProduct NameUnits SoldRevenue`, absent from
the spaced line, and stage 3 finds no line with ≥ 3 double-space-separated
segments), not the claimed single row. -/
theorem extractor_table_scenario_cex :
    textBasedTableDetection
      ["ID Product Name Units Sold Revenue ($)",
       "1 MacBook Pro 16\" 1,245 $3,107,500"] = [] ∧
    (textBasedTableDetection
      ["ID Product Name Units Sold Revenue ($)",
       "1 MacBook Pro 16\" 1,245 $3,107,500"]).map DetectedTable.rows ≠
      [[["1", "MacBook Pro 16\"", "1,245", "$3,107,500"]]] := by
  decide

/-- C8 (amended).  With the header line in the concatenated form the
extractor actually emits — `IDProduct NameUnits SoldRevenue ($)` — followed
by the data line `1 MacBook Pro 16" 1,245 $3,107,500`, the text-based
detection produces exactly one table, whose single row is
`["1", "MacBook Pro 16\"", "1,245", "$3,107,500"]`, split by locating the
trailing currency amount, then the trailing numeric run before it, with the
remainder as the name field. -/
theorem extractor_table_scenario_amended :
    textBasedTableDetection
      ["IDProduct NameUnits SoldRevenue ($)",
       "1 MacBook Pro 16\" 1,245 $3,107,500"] =
      [⟨knownTableHeaders, [["1", "MacBook Pro 16\"", "1,245", "$3,107,500"]],
        some "Q4 2024 Sales Performance"⟩] := by
  decide

/-! ## Status Tracker

Embedding of `PdfRepository.updateStatus(id, status, error = null)`:
`updateData = { status }; if (error) updateData.error = error` — the update
always overwrites `status`, but touches `error` only when a truthy (non-null,
non-empty) error string was passed; it never clears a previously stored
error.  `PdfService.createPdf` creates the record with `status = 'queued'`
and a NULL `error` column. -/

/-- The `status`/`error` fields of one document record. -/
structure PdfRecord where
  status : String
  error : Option String
deriving DecidableEq, Repr

/-- `PdfRepository.updateStatus`: set the status; set the error only when
the argument is truthy (JS: `null` and `''` are falsy). -/
def applyUpdateStatus (r : PdfRecord) (s : String) (e : Option String) : PdfRecord :=
  { status := s,
    error := match e with
      | some m => if m = "" then r.error else some m
      | none => r.error }

/-- The record as `PdfService.createPdf` stores it. -/
def initialPdfRecord : PdfRecord := ⟨"queued", none⟩

/-- The status transitions this core ever performs: the upload handler's
`updatePdfStatus(id, 'parsing')`, the consumer's
`updatePdfStatus(id, 'ready')`, and `updatePdfStatus(id, 'failed', msg)`
from the consumer and the upload handler. -/
inductive StatusUpdate where
  | toParsing
  | toReady
  | toFailed (msg : String)
deriving DecidableEq, Repr

/-- One Status Tracker operation applied to the record. -/
def stepStatus (r : PdfRecord) : StatusUpdate → PdfRecord
  | .toParsing => applyUpdateStatus r "parsing" none
  | .toReady => applyUpdateStatus r "ready" none
  | .toFailed m => applyUpdateStatus r "failed" (some m)

/-- A sequence of Status Tracker operations applied in order. -/
def runStatusOps (r : PdfRecord) : List StatusUpdate → PdfRecord
  | [] => r
  | op :: ops => runStatusOps (stepStatus r op) ops

/-- C9 counterexample.  The trace `parsing → failed "boom" → ready` — a
consumer failure followed by a successful redelivery of the requeued
message — is reachable through the Status Tracker operations, and leaves
the record at `status = 'ready'` with `error = 'boom'` still set: the
error field is non-null while the status is not `'failed'`. -/
theorem status_error_invariant_cex :
    runStatusOps initialPdfRecord
        [.toParsing, .toFailed "boom", .toReady] = ⟨"ready", some "boom"⟩ ∧
    (runStatusOps initialPdfRecord
        [.toParsing, .toFailed "boom", .toReady]).error ≠ none ∧
    (runStatusOps initialPdfRecord
        [.toParsing, .toFailed "boom", .toReady]).status ≠ "failed" := by
  decide

/-- In any state reachable from a record, a stored error is either the
record's original one or stems from a `failed` transition in the trace. -/
theorem error_of_runStatusOps (ops : List StatusUpdate) :
    ∀ (r : PdfRecord) (m : String), (runStatusOps r ops).error = some m →
      r.error = some m ∨ (StatusUpdate.toFailed m ∈ ops ∧ m ≠ "") := by
  induction ops with
  | nil => intro r m hm; exact Or.inl hm
  | cons op ops ih =>
    intro r m hm
    rcases ih (stepStatus r op) m hm with h | h
    · cases op with
      | toParsing => exact Or.inl h
      | toReady => exact Or.inl h
      | toFailed msg =>
        by_cases he : msg = ""
        · exact Or.inl (by simpa [stepStatus, applyUpdateStatus, he] using h)
        · refine Or.inr ⟨?_, ?_⟩
          · have : msg = m := by
              simpa [stepStatus, applyUpdateStatus, he] using h
            rw [← this]
            exact List.mem_cons_self _ _
          · have : msg = m := by
              simpa [stepStatus, applyUpdateStatus, he] using h
            rw [← this]
            exact he
    · exact Or.inr ⟨List.mem_cons_of_mem _ h.1, h.2⟩

/-- C9 (amended).  Starting from the freshly created record
(`status = 'queued'`, `error` NULL), after any sequence of Status Tracker
operations the error field is non-null only if some transition set
`status = 'failed'` with that non-empty error text — but a later transition
to `'parsing'`/`'ready'` does not clear the error, so a non-null error does
not imply that the *current* status is `'failed'`. -/
theorem status_error_provenance (ops : List StatusUpdate) (m : String)
    (hm : (runStatusOps initialPdfRecord ops).error = some m) :
    StatusUpdate.toFailed m ∈ ops ∧ m ≠ "" := by
  rcases error_of_runStatusOps ops initialPdfRecord m hm with h | h
  · exact absurd h (by simp [initialPdfRecord])
  · exact h

/-- Witness for `status_error_provenance` on a concrete failing trace. -/
theorem status_error_provenance_witness :
    StatusUpdate.toFailed "disk full" ∈
        [StatusUpdate.toParsing, StatusUpdate.toFailed "disk full"] ∧
      "disk full" ≠ "" :=
  status_error_provenance [.toParsing, .toFailed "disk full"] "disk full"
    (by decide)

/-! ## Indexer

Embedding of `ElasticsearchService.indexDocuments(documents, docId)`.  The
function is generic in the document type: it only inspects the batch length
and forwards the documents to the bulk call, whose outcome (network error,
or success carrying the response's `errors` flag) is an explicit parameter.
Per-document errors in the bulk response are only logged. -/

/-- Result object `{success, indexedCount, error?}` (the echoed `docId` is
constant and omitted). -/
structure IndexResult where
  success : Bool
  indexedCount : Nat
  error : Option String
deriving DecidableEq, Repr

/-- `indexDocuments`: throws when not connected; for a non-empty batch runs
the bulk call (propagating its failure, ignoring its `errors` flag except
for logging) and reports `success` with the full batch length; for an empty
batch reports failure without calling bulk. -/
def indexDocuments {α : Type} (isConnected : Bool) (documents : List α)
    (bulk : Except String Bool) : Except String IndexResult :=
  if !isConnected then .error "Elasticsearch not connected"
  else if 0 < documents.length then
    match bulk with
    | .error e => .error e
    | .ok _errorsFlag => .ok ⟨true, documents.length, none⟩
  else .ok ⟨false, 0, some "No documents to index"⟩

/-- C4.  (a) For a non-empty batch with a completed bulk call, the result
is successful with `indexedCount` equal to the submitted batch size even
when the bulk response reports per-document errors (`bulkErrors = true` —
they are only logged).  (b) For the empty batch the call returns the
unsuccessful result (`success = false`, `indexedCount = 0`, error set)
whatever the bulk outcome, since no bulk request is issued.  (c) Among
completed calls, the result is unsuccessful exactly when the batch was
empty. -/
theorem indexDocuments_spec {α : Type} (documents : List α) :
    (∀ bulkErrors : Bool, documents ≠ [] →
      indexDocuments true documents (.ok bulkErrors) =
        .ok ⟨true, documents.length, none⟩) ∧
    (∀ bulk : Except String Bool, documents = [] →
      indexDocuments true documents bulk =
        .ok ⟨false, 0, some "No documents to index"⟩) ∧
    (∀ (bulk : Except String Bool) (res : IndexResult),
      indexDocuments true documents bulk = .ok res →
        (res.success = false ↔ documents = [])) := by
  refine ⟨?_, ?_, ?_⟩
  · intro bulkErrors hne
    have hlen : 0 < documents.length := List.length_pos.mpr hne
    simp [indexDocuments, hlen]
  · intro bulk he
    simp [indexDocuments, he]
  · intro bulk res hres
    by_cases he : documents = []
    · simp only [indexDocuments, he, List.length_nil, Nat.lt_irrefl,
        Bool.not_true, Bool.false_eq_true, if_false] at hres
      cases hres
      simp [he]
    · have hlen : 0 < documents.length := List.length_pos.mpr he
      simp only [indexDocuments, Bool.not_true, Bool.false_eq_true, if_false,
        if_pos hlen] at hres
      match bulk, hres with
      | .ok flag, hres =>
        cases hres
        simp [he]

/-- Witness for `indexDocuments_spec`: a two-document batch with a bulk
response reporting per-document errors still indexes both, and an empty
batch yields the unsuccessful result. -/
theorem indexDocuments_spec_witness :
    indexDocuments true ["docA", "docB"] (.ok true) =
      .ok ⟨true, (["docA", "docB"] : List String).length, none⟩ ∧
    indexDocuments true ([] : List String) (.ok false) =
      .ok ⟨false, 0, some "No documents to index"⟩ :=
  ⟨(indexDocuments_spec ["docA", "docB"]).1 true (by decide),
   (indexDocuments_spec ([] : List String)).2.1 (.ok false) rfl⟩

/-! ## Work Queue consumer

Embedding of `RabbitMQConsumerService.handleMessage` /
`processPdfParsedMessage`.  Each awaited collaborator of the processing
sequence is an explicit outcome in the environment: parsing the message
envelope, reading the extracted-content JSON, the ETL transformation, the
Indexer call, and the two status updates.  `PdfData` and the document type
stay abstract (`Nat`-indexed stubs are enough because the consumer only
threads them through). -/

/-- Outcomes of the consumer's awaited steps for one message. -/
structure ConsumerEnv where
  /-- `JSON.parse(msg.content.toString())` succeeds. -/
  parseMsg : Bool
  /-- Reading and parsing the file at `jsonPath` (`readFileSync` +
  `JSON.parse`); the payload is abstracted to a token. -/
  readJson : Except String Nat
  /-- `transformPdfDataToElasticsearchDocuments` on the read payload
  (a malformed content item throws). -/
  transform : Nat → Except String (List Nat)
  /-- `elasticsearchManager.indexDocuments` on the transformed batch. -/
  indexDocs : List Nat → Except String IndexResult
  /-- Outcome of `updatePdfStatus(pdfId, 'ready')`: `ok` when the update
  reached the database, otherwise the database error it threw. -/
  updateReady : Except String Unit
  /-- `updatePdfStatus(pdfId, 'failed', msg)` reaches the database
  (its own failure is caught and only logged). -/
  updateFailedOk : Bool

/-- The catch-block of `processPdfParsedMessage`: attempt the `failed`
status update (swallowing its own failure) and rethrow the error. -/
def consumerFailPath (env : ConsumerEnv) (r : PdfRecord) (e : String) :
    PdfRecord × Option String :=
  if env.updateFailedOk then (applyUpdateStatus r "failed" (some e), some e)
  else (r, some e)

/-- The try-block of `processPdfParsedMessage`: read JSON → ETL → index
(a completed Indexer call with `success = false` throws
`Elasticsearch ingestion failed: <error>`) → set status `ready`.  Returns
the first error thrown, if any. -/
def consumerPipeline (env : ConsumerEnv) : Except String Unit :=
  match env.readJson with
  | .error e => .error e
  | .ok data =>
    match env.transform data with
    | .error e => .error e
    | .ok docs =>
      match env.indexDocs docs with
      | .error e => .error e
      | .ok res =>
        if res.success then
          match env.updateReady with
          | .ok _ => .ok ()
          | .error e => .error e
        else
          .error ("Elasticsearch ingestion failed: " ++ res.error.getD "undefined")

/-- `processPdfParsedMessage`: the try-block, whose success ends with the
`ready` status update, and whose failure runs the catch block and rethrows.
Returns the record state and the error that escaped, if any. -/
def processPdfParsedMessage (env : ConsumerEnv) (r : PdfRecord) :
    PdfRecord × Option String :=
  match consumerPipeline env with
  | .ok _ => (applyUpdateStatus r "ready" none, none)
  | .error e => consumerFailPath env r e

/-- The broker action taken for the message. -/
inductive MsgAction where
  | ack
  | nack (multiple requeue : Bool)
deriving DecidableEq, Repr

/-- `handleMessage`: parse the envelope and process; acknowledge on full
success, otherwise reject with `requeue = true` (`channel.nack(msg, false,
true)`).  An envelope parse failure never reaches the record. -/
def handleMessage (env : ConsumerEnv) (r : PdfRecord) : PdfRecord × MsgAction :=
  if env.parseMsg then
    match processPdfParsedMessage env r with
    | (r', none) => (r', .ack)
    | (r', some _) => (r', .nack false true)
  else (r, .nack false true)

/-- C1.  For a well-formed message (`parseMsg`) whose `failed` status write
reaches the database: (a) whenever the processing sequence — reading the
extracted-content JSON, the ETL transformation, the Indexer call, or the
`ready` status update — throws a (non-empty) error, the consumer leaves the
document at `status = 'failed'` with that error text and rejects the
message with `requeue = true`; (b) the message is acknowledged only when
the whole sequence completed without error, leaving `status = 'ready'`. -/
theorem consumer_failure_failed_and_requeue (env : ConsumerEnv) (r : PdfRecord)
    (hparse : env.parseMsg = true) (hdb : env.updateFailedOk = true) :
    (∀ m, m ≠ "" → consumerPipeline env = .error m →
      handleMessage env r = (⟨"failed", some m⟩, .nack false true)) ∧
    (∀ r', handleMessage env r = (r', .ack) →
      consumerPipeline env = .ok () ∧ r'.status = "ready" ∧ r'.error = r.error) := by
  constructor
  · intro m hne hm
    simp [handleMessage, hparse, processPdfParsedMessage, hm, consumerFailPath,
      hdb, applyUpdateStatus, hne]
  · intro r' hack
    cases hpipe : consumerPipeline env with
    | ok u =>
      cases u
      refine ⟨rfl, ?_, ?_⟩
      · have : r' = applyUpdateStatus r "ready" none := by
          simpa [handleMessage, hparse, processPdfParsedMessage, hpipe] using
            congrArg Prod.fst hack.symm
        rw [this]
        rfl
      · have : r' = applyUpdateStatus r "ready" none := by
          simpa [handleMessage, hparse, processPdfParsedMessage, hpipe] using
            congrArg Prod.fst hack.symm
        rw [this]
        rfl
    | error e =>
      exfalso
      have := congrArg Prod.snd hack
      simp [handleMessage, hparse, processPdfParsedMessage, hpipe,
        consumerFailPath, hdb] at this

/-- A concrete consumer run whose JSON read fails. -/
def consumerEnvJsonFail : ConsumerEnv where
  parseMsg := true
  readJson := .error "JSON file not found: /data/pdf_1.json"
  transform := fun _ => .ok []
  indexDocs := fun _ => .ok ⟨true, 0, none⟩
  updateReady := .ok ()
  updateFailedOk := true

/-- Witness for `consumer_failure_failed_and_requeue`: a failing JSON read
leaves the record failed with the error text and nacks for requeue. -/
theorem consumer_failure_failed_and_requeue_witness :
    handleMessage consumerEnvJsonFail initialPdfRecord =
      (⟨"failed", some "JSON file not found: /data/pdf_1.json"⟩,
        .nack false true) :=
  (consumer_failure_failed_and_requeue consumerEnvJsonFail initialPdfRecord
    rfl rfl).1 "JSON file not found: /data/pdf_1.json" (by decide) rfl

/-! ## Upload handler

Embedding of `PdfController.createPdf` / `processPdfAsync`.  The 201
response is sent before the background task starts; the task sets
`status = 'parsing'`, runs `parseAndSavePDFJSON` (whose JSON output stays
on disk), and then attempts to publish the work message.  The
`sendPdfParsedMessage` catch block updates the status to `'failed'` with
the broker error; the outer catch does the same for extraction errors. -/

/-- Summary scalars of a completed extraction (`pageCount`, `textLength`,
`tableCount`); standing in for the JSON file written to disk. -/
structure ParseSummary where
  pageCount : Nat
  textLength : Nat
  tableCount : Nat
deriving DecidableEq, Repr

/-- Awaited outcomes of one background processing run. -/
structure UploadEnv where
  /-- `parseAndSavePDFJSON` outcome. -/
  parseResult : Except String ParseSummary
  /-- `rabbitMQManager.sendPdfParsedMessage` outcome. -/
  publish : Except String Unit

/-- `processPdfAsync`: returns the final record state together with the
extraction result still on disk (`none` when extraction itself failed). -/
def processPdfAsync (env : UploadEnv) (r : PdfRecord) :
    PdfRecord × Option ParseSummary :=
  let r1 := applyUpdateStatus r "parsing" none
  match env.parseResult with
  | .error e => (applyUpdateStatus r1 "failed" (some e), none)
  | .ok summary =>
    match env.publish with
    | .ok _ => (r1, some summary)
    | .error e => (applyUpdateStatus r1 "failed" (some e), some summary)

/-- `createPdf`: the 201 response is sent unconditionally before the
background task runs, so the upload outcome never depends on the task. -/
def createPdfUpload (env : UploadEnv) : Nat × (PdfRecord × Option ParseSummary) :=
  (201, processPdfAsync env initialPdfRecord)

/-- C5 counterexample.  With a successful extraction and a failing publish,
the document does **not** remain at `status = 'parsing'`: the
`sendPdfParsedMessage` catch block sets it to `'failed'` with the broker
error text. -/
theorem publish_failure_status_cex :
    processPdfAsync ⟨.ok ⟨3, 120, 1⟩, .error "Broker unavailable"⟩
        initialPdfRecord =
      (⟨"failed", some "Broker unavailable"⟩, some ⟨3, 120, 1⟩) ∧
    (processPdfAsync ⟨.ok ⟨3, 120, 1⟩, .error "Broker unavailable"⟩
        initialPdfRecord).1.status ≠ "parsing" := by
  decide

/-- C5 (amended).  If publishing the work message fails after a successful
extraction, the upload still succeeds (the 201 response was already sent
and does not depend on the background task), the extraction result is not
rolled back — but the document's status is set to `'failed'` with the
broker error text instead of remaining `'parsing'`. -/
theorem publish_failure_keeps_upload (summary : ParseSummary) (e : String)
    (he : e ≠ "") :
    createPdfUpload ⟨.ok summary, .error e⟩ =
      (201, (⟨"failed", some e⟩, some summary)) := by
  simp [createPdfUpload, processPdfAsync, applyUpdateStatus, initialPdfRecord, he]

/-- Witness for `publish_failure_keeps_upload`. -/
theorem publish_failure_keeps_upload_witness :
    createPdfUpload ⟨.ok ⟨2, 50, 0⟩, .error "ECONNREFUSED"⟩ =
      (201, (⟨"failed", some "ECONNREFUSED"⟩, some ⟨2, 50, 0⟩)) :=
  publish_failure_keeps_upload ⟨2, 50, 0⟩ "ECONNREFUSED" (by decide)

/-! ## Query Builder / Search Service

Embedding of the `SearchController`: parameter validation, the
filename-to-id lookup `getPdfIdByFilename` (which swallows any collaborator
error and returns `null`), and `buildSearchQuery`, which assembles the
boolean query's `must` array. -/

/-- One clause of the boolean query's `must` array: an exact `term` filter,
a `terms` filter over a list of ids, or a `multi_match` (`fuzzy` records
whether `type: best_fields, fuzziness: AUTO` is attached). -/
inductive Clause where
  | term (field value : String)
  | termsList (field : String) (values : List String)
  | multiMatch (query : String) (fields : List String) (fuzzy : Bool)
deriving DecidableEq, Repr

/-- JS truthiness of an optional query-string parameter: absent
(`undefined`) and the empty string are falsy. -/
def jsTruthy : Option String → Bool
  | none => false
  | some s => s != ""

/-- The five optional search parameters of one request. -/
structure SearchParams where
  query : Option String
  pdf_filename : Option String
  type : Option String
  page_number : Option String
  total_pages : Option String
deriving DecidableEq, Repr

/-- A row of the `pdfs` table as the lookup collaborator returns it. -/
structure PdfRow where
  id : String
deriving DecidableEq, Repr

/-- `getPdfIdByFilename`: map the collaborator's rows to their ids; any
thrown error is caught, logged, and turned into `null`. -/
def getPdfIdByFilename (svcResult : Except String (List PdfRow)) :
    Option (List String) :=
  match svcResult with
  | .ok pdfs => some (pdfs.map PdfRow.id)
  | .error _ => none

/-- `query.replace(/[+\-&|!(){}[\]^"~*?:\\]/g, "\\$&")`: the escaped
characters by code point
(`+ - & | ! ( ) { } [ ] ^ " ~ * ? : \`). -/
def isEsSpecial (c : Char) : Bool :=
  c.toNat ∈ [43, 45, 38, 124, 33, 40, 41, 123, 125, 91, 93, 94, 34, 126,
    42, 63, 58, 92]

/-- The escaped free-text query: every special character is prefixed with a
backslash. -/
def escapeQuery (s : String) : String :=
  ⟨s.data.foldr (fun c acc =>
    if isEsSpecial c then '\\' :: c :: acc else c :: acc) []⟩

/-- `buildSearchQuery`: the mandatory `user_id` term, then — each only when
its parameter is truthy — the `pdf_id` terms filter (omitted when the
lookup returned `null`), the `type`/`page_number`/`total_pages` terms, and
the free-text `multi_match`, which targets the image field set without
fuzziness when `type === 'image'` and `title`/`text` with fuzziness
otherwise. -/
def buildSearchQuery (svcResult : Except String (List PdfRow))
    (p : SearchParams) (userId : String) : List Clause :=
  [Clause.term "user_id" userId]
  ++ (if jsTruthy p.pdf_filename then
        match getPdfIdByFilename svcResult with
        | some ids => [Clause.termsList "pdf_id" ids]
        | none => []
      else [])
  ++ (if jsTruthy p.type then [Clause.term "type" (p.type.getD "")] else [])
  ++ (if jsTruthy p.page_number then
        [Clause.term "page_number" (p.page_number.getD "")] else [])
  ++ (if jsTruthy p.total_pages then
        [Clause.term "total_pages" (p.total_pages.getD "")] else [])
  ++ (if jsTruthy p.query then
        (if p.type = some "image" then
          [Clause.multiMatch (escapeQuery (p.query.getD ""))
            ["image.caption", "image.imagetext", "title", "text"] false]
        else
          [Clause.multiMatch (escapeQuery (p.query.getD ""))
            ["title", "text"] true])
      else [])

/-- `searchPdfContent`'s validation and query construction: with every
optional parameter falsy the call throws `ValidationError` before any query
is built or sent; otherwise the built query is handed to the search
engine. -/
def searchPdfContent (svcResult : Except String (List PdfRow))
    (p : SearchParams) (userId : String) : Except String (List Clause) :=
  if !jsTruthy p.query && !jsTruthy p.pdf_filename && !jsTruthy p.type &&
      !jsTruthy p.page_number && !jsTruthy p.total_pages then
    .error "At least one search parameter is required"
  else .ok (buildSearchQuery svcResult p userId)

/-- C2.  A request with every optional parameter absent fails with the
`ValidationError` (and the error return means no query was built or sent to
the search engine). -/
theorem search_no_params_validation (svcResult : Except String (List PdfRow))
    (userId : String) :
    searchPdfContent svcResult ⟨none, none, none, none, none⟩ userId =
      .error "At least one search parameter is required" := rfl

/-! ### Field selection of the free-text clause (C6) -/

/-- Only the `multi_match` clauses of a built query. -/
def multiMatchClauses (q : List Clause) : List Clause :=
  q.filter fun c => match c with
    | .multiMatch _ _ _ => true
    | _ => false

theorem multiMatchClauses_append (a b : List Clause) :
    multiMatchClauses (a ++ b) = multiMatchClauses a ++ multiMatchClauses b := by
  simp [multiMatchClauses, List.filter_append]

theorem multiMatchClauses_opt_term (b : Bool) (f v : String) :
    multiMatchClauses (if b then [Clause.term f v] else []) = [] := by
  cases b <;> rfl

theorem multiMatchClauses_filename_seg (b : Bool) (o : Option (List String)) :
    multiMatchClauses (if b then
      (match o with
        | some ids => [Clause.termsList "pdf_id" ids]
        | none => []) else []) = [] := by
  cases b <;> cases o <;> rfl

/-- C6.  For a request with a non-empty free-text query: when
`type = 'image'` the single `multi_match` clause targets the image field
set `image.caption`/`image.imagetext` (with `title`/`text`, without
fuzziness) rather than the plain pair; for any other `type` it targets
`title`/`text` with fuzzy matching. -/
theorem free_text_field_selection (svcResult : Except String (List PdfRow))
    (p : SearchParams) (userId q : String) (hq : p.query = some q)
    (hqne : q ≠ "") :
    (p.type = some "image" →
      multiMatchClauses (buildSearchQuery svcResult p userId) =
        [Clause.multiMatch (escapeQuery q)
          ["image.caption", "image.imagetext", "title", "text"] false]) ∧
    (p.type ≠ some "image" →
      multiMatchClauses (buildSearchQuery svcResult p userId) =
        [Clause.multiMatch (escapeQuery q) ["title", "text"] true]) := by
  have hqt : jsTruthy (some q) = true := bne_iff_ne.mpr hqne
  constructor
  · intro htype
    simp only [buildSearchQuery, multiMatchClauses_append,
      multiMatchClauses_filename_seg, multiMatchClauses_opt_term, hq, hqt,
      if_true, htype, if_pos]
    rfl
  · intro htype
    simp only [buildSearchQuery, multiMatchClauses_append,
      multiMatchClauses_filename_seg, multiMatchClauses_opt_term, hq, hqt,
      if_true, if_neg htype]
    rfl

/-- Witness for `free_text_field_selection` at the spec's scenario
(`type=image`, `query="sample"`) and at a plain paragraph request. -/
theorem free_text_field_selection_witness :
    ((some "image" : Option String) = some "image" →
      multiMatchClauses (buildSearchQuery (.ok [])
          ⟨some "sample", none, some "image", none, none⟩ "u1") =
        [Clause.multiMatch (escapeQuery "sample")
          ["image.caption", "image.imagetext", "title", "text"] false]) ∧
    ((some "image" : Option String) ≠ some "image" →
      multiMatchClauses (buildSearchQuery (.ok [])
          ⟨some "sample", none, some "image", none, none⟩ "u1") =
        [Clause.multiMatch (escapeQuery "sample") ["title", "text"] true]) :=
  free_text_field_selection (.ok [])
    ⟨some "sample", none, some "image", none, none⟩ "u1" "sample" rfl
    (by decide)

/-- C10.  When the request carries a (truthy) `pdf_filename` but the lookup
collaborator throws: the error is swallowed (`getPdfIdByFilename` returns
`null`), the built query is identical to the one for the same request
without `pdf_filename` — so the search proceeds over all of the user's
documents instead of failing — no `pdf_id` terms filter appears anywhere in
it, and the mandatory `user_id` term filter is still present. -/
theorem filename_lookup_error_swallowed (e : String) (p : SearchParams)
    (userId f : String) (hf : p.pdf_filename = some f) (hfne : f ≠ "") :
    getPdfIdByFilename (.error e) = none ∧
    buildSearchQuery (.error e) p userId =
      buildSearchQuery (.error e)
        ⟨p.query, none, p.type, p.page_number, p.total_pages⟩ userId ∧
    Clause.term "user_id" userId ∈ buildSearchQuery (.error e) p userId ∧
    (∀ fld ids, Clause.termsList fld ids ∉ buildSearchQuery (.error e) p userId) := by
  refine ⟨rfl, ?_, ?_, ?_⟩
  · simp [buildSearchQuery, getPdfIdByFilename]
  · simp [buildSearchQuery]
  · intro fld ids hmem
    simp only [buildSearchQuery, getPdfIdByFilename, List.mem_append,
      List.mem_cons, List.not_mem_nil] at hmem
    rcases hmem with ((((h | h) | h) | h) | h) | h
    · rcases h with h | h
      · exact Clause.noConfusion h
      · exact h
    · split at h <;> simp at h
    · split at h <;> simp at h
    · split at h <;> simp at h
    · split at h <;> simp at h
    · split at h <;> (try split at h) <;> simp at h

/-- Witness for `filename_lookup_error_swallowed` at a concrete request. -/
theorem filename_lookup_error_swallowed_witness :
    getPdfIdByFilename (.error "db down") = none ∧
    buildSearchQuery (.error "db down")
        ⟨some "alpha", some "report.pdf", none, none, none⟩ "u1" =
      buildSearchQuery (.error "db down")
        ⟨some "alpha", none, none, none, none⟩ "u1" ∧
    Clause.term "user_id" "u1" ∈ buildSearchQuery (.error "db down")
      ⟨some "alpha", some "report.pdf", none, none, none⟩ "u1" ∧
    (∀ fld ids, Clause.termsList fld ids ∉ buildSearchQuery (.error "db down")
      ⟨some "alpha", some "report.pdf", none, none, none⟩ "u1") :=
  filename_lookup_error_swallowed "db down"
    ⟨some "alpha", some "report.pdf", none, none, none⟩ "u1" "report.pdf"
    rfl (by decide)

end FlowAutomate
